import Mathlib

/-!
Verification of the factor-construction and regression-evaluation engine of
the StockAnalysis repository (src/fama_french.py, src/trading_strategies.py).

The pandas data model is shallowly embedded as follows:
* a numeric table ("matrix") is a list of rows, each row a list of
  `Option ℚ` per-asset cells; `none` models a pandas NaN (missing value);
* `DataFrame.shift(k)` becomes `shiftRows`, `pct_change` and the momentum
  quotient become element-wise `divScore` over shifted copies,
  `rank(axis=1, pct=True)` (average-rank ties, NaN kept, denominator =
  count of non-missing cells in the row) becomes `rankRow`,
  `Series.sort_values(ascending=False)` becomes a stable descending sort
  by rank with missing-rank entries appended at the end: pandas nargsort
  reverses the input, applies its stable ascending argsort, and reverses
  the indexer again, so tied ranks keep their original column order and
  NaN entries go last (na_position = last);
* monetary values are rationals; floating point round-off is not modelled;
* the daily-to-monthly resampling step (`resample.last`) sits upstream of
  every claim, so `calculate_umd` is embedded from the monthly close matrix
  onwards; row indices play the role of the monthly PeriodIndex;
* fallible library behaviour (the statsmodels OLS fit on a degenerate
  design) is modelled as `Except FFErr`, where `FFErr.linAlgFailure` stands
  for a generic numerical failure; the constructor `FFErr.emptyOverlap`
  exists only so that claims about a typed empty-overlap error can be
  stated; the repository code never checks for an empty merge.
-/

namespace StockAnalysis

/-- A 2-D pandas table: rows of per-asset cells, `none` = NaN. -/
abbrev Mat := List (List (Option ℚ))

/-- Cell access: row `t`, column `a`; out-of-range reads give `none`,
matching how the embedding treats absent data. -/
def getEntry (m : Mat) (t a : Nat) : Option ℚ := (m.getD t []).getD a none

/-- Embeds `DataFrame.shift(k)`: the first `k` rows become all-NaN rows of
width `w`, the remaining rows are the original rows moved down by `k`.
The number of rows is preserved. -/
def shiftRows (k w : Nat) (m : Mat) : Mat :=
  List.replicate (min k m.length) (List.replicate w none) ++ m.take (m.length - k)

/-- Element-wise `a / b - 1`, NaN-propagating: the cell is missing whenever
either operand is missing (pandas arithmetic on NaN). -/
def divScore : Option ℚ → Option ℚ → Option ℚ
  | some a, some b => some (a / b - 1)
  | _, _ => none

/-- Element-wise combination of two tables (pandas aligned arithmetic;
both operands of every use below have identical shape). -/
def zipMat (f : Option ℚ → Option ℚ → Option ℚ) (A B : Mat) : Mat :=
  List.zipWith (List.zipWith f) A B

/-- Embeds `monthly_closes.pct_change()`: row `t` is
`close[t] / close[t-1] - 1`.  Missing prices propagate as missing; the
claims under verification only evaluate returns at fully populated rows, so
the pandas pad fill of interior gaps never comes into play. -/
def monthlyReturns (w : Nat) (m : Mat) : Mat := zipMat divScore m (shiftRows 1 w m)

/-- Embeds line 58 of fama_french.py:
`mom_score = (monthly_closes.shift(1) / monthly_closes.shift(12)) - 1`. -/
def momScore (w : Nat) (m : Mat) : Mat := zipMat divScore (shiftRows 1 w m) (shiftRows 12 w m)

/-- Percentile rank of value `v` within the non-missing row values `vals`:
pandas `rank(method = average, pct = True)`.  The tie group of `v` occupies
positions `lt+1 .. lt+eq`, whose average is `lt + (eq+1)/2`, then the rank
is divided by the count of non-missing cells. -/
def rankValue (vals : List ℚ) (v : ℚ) : ℚ :=
  ((vals.countP (fun u => decide (u < v)) : ℚ)
      + ((vals.countP (fun u => decide (u = v)) : ℚ) + 1) / 2)
    / (vals.length : ℚ)

/-- Embeds `rank(axis=1, pct=True)` for one row: missing cells stay
missing, every present cell is replaced by its percentile rank among the
present cells of the row. -/
def rankRow (row : List (Option ℚ)) : List (Option ℚ) :=
  row.map (fun x => x.map (rankValue (row.filterMap id)))

/-- Row-wise percentile ranking of a whole table (line 61 of
fama_french.py and line 42 of trading_strategies.py). -/
def rankMat (m : Mat) : Mat := m.map rankRow

/-- Mean of a list of rationals, `none` on the empty list: pandas
`mean(axis=1)` of an all-NaN row is NaN. -/
def meanList (l : List ℚ) : Option ℚ :=
  if l.isEmpty then none else some (l.sum / (l.length : ℚ))

/-- The return values kept by `returns.where(mask).mean(axis=1)` in one
row: a return survives when both it and the rank are present and the rank
satisfies the mask predicate. -/
def maskedVals (rets ranks : List (Option ℚ)) (p : ℚ → Bool) : List ℚ :=
  (rets.zip ranks).filterMap (fun pr =>
    match pr with
    | (some r, some k) => if p k then some r else none
    | _ => none)

/-- Embeds `monthly_returns.where(mask).mean(axis=1)` for one row. -/
def maskedMean (rets ranks : List (Option ℚ)) (p : ℚ → Bool) : Option ℚ :=
  meanList (maskedVals rets ranks p)

/-- One row of the UMD series before `dropna`: winners mean minus losers
mean at row `t`, `none` when either mean is NaN.  Winners are
`rank ≥ 1 - x`, losers `rank ≤ x` (lines 64-71 of fama_french.py). -/
def umdEntry (w : Nat) (m : Mat) (x : ℚ) (t : Nat) : Option (Nat × ℚ) :=
  let rets := (monthlyReturns w m).getD t []
  let ranks := (rankMat (momScore w m)).getD t []
  match maskedMean rets ranks (fun k => decide (1 - x ≤ k)),
        maskedMean rets ranks (fun k => decide (k ≤ x)) with
  | some a, some b => some (t, a - b)
  | _, _ => none

/-- Embeds `calculate_umd` (fama_french.py lines 44-75) from the monthly
close matrix (`w` assets) onwards; the result pairs each surviving row
index (monthly period) with its UMD value, `dropna` removing the rest. -/
def calculate_umd (w : Nat) (m : Mat) (x : ℚ) : List (Nat × ℚ) :=
  (List.range m.length).filterMap (umdEntry w m x)

/-- The close-price table handed to `momentum_strategy`: ordered asset
column labels plus the close matrix. -/
structure Frame where
  assets : List String
  closes : Mat

/-- Embeds lines 37-39 of trading_strategies.py:
`mom_score = closes.shift(lag) / closes.shift(lag + lookback) - 1`. -/
def frameMomScore (f : Frame) (lookback lag : Nat) : Mat :=
  zipMat divScore (shiftRows lag f.assets.length f.closes)
    (shiftRows (lag + lookback) f.assets.length f.closes)

/-- Embeds `all_daily_ranks.iloc[-1]`: the last row of the rank matrix,
taken unconditionally (line 45 of trading_strategies.py). -/
def lastRankRow (f : Frame) (lookback lag : Nat) : List (Option ℚ) :=
  (rankMat (frameMomScore f lookback lag)).getLastD []

/-- The (asset, rank) pairs of the last rank row whose rank is present,
in column order. -/
def rankedPairs (f : Frame) (lookback lag : Nat) : List (String × ℚ) :=
  (f.assets.zip (lastRankRow f lookback lag)).filterMap (fun pr =>
    match pr with
    | (a, some k) => some (a, k)
    | (_, none) => none)

/-- The assets of the last rank row whose rank is missing, in column
order: pandas sort_values keeps NaN entries at the end. -/
def unrankedAssets (f : Frame) (lookback lag : Nat) : List String :=
  (f.assets.zip (lastRankRow f lookback lag)).filterMap (fun pr =>
    match pr with
    | (_, some _) => none
    | (a, none) => some a)

/-- Descending order on (asset, rank) pairs: compare by rank only, so a
stable sort under this relation keeps equal ranks in their original
column order. -/
def rankGE (p q : String × ℚ) : Prop := q.2 ≤ p.2

instance : DecidableRel rankGE := fun p q => inferInstanceAs (Decidable (q.2 ≤ p.2))

instance : IsTotal (String × ℚ) rankGE := ⟨fun p q => le_total q.2 p.2⟩

instance : IsTrans (String × ℚ) rankGE := ⟨fun _ _ _ h h2 => le_trans h2 h⟩

/-- Stable descending insertion sort by rank.  This is what pandas
nargsort computes for a descending sort: it reverses the input, applies
the stable ascending argsort, and reverses the indexer again — the
standard stable-descending construction, under which tied ranks keep
their original column order. -/
def sortDesc (l : List (String × ℚ)) : List (String × ℚ) := l.insertionSort rankGE

/-- Embeds `sort_values(ascending=False)` on the ranked entries: the
stable descending-by-rank ordering (tied ranks in original column
order). -/
def sortedDescPairs (f : Frame) (lookback lag : Nat) : List (String × ℚ) :=
  sortDesc (rankedPairs f lookback lag)

/-- The full ordering `current_ranks.sort_values(ascending=False)` of
line 45: ranked assets descending by rank, then the NaN-ranked assets
(na_position = last) in column order. -/
def selectionOrder (f : Frame) (lookback lag : Nat) : List String :=
  (sortedDescPairs f lookback lag).map Prod.fst ++ unrankedAssets f lookback lag

/-- Last `n` elements of a list (pandas `tail(n)`); the whole list when
`n` exceeds its length. -/
def takeRight (n : Nat) (l : List α) : List α := l.drop (l.length - n)

/-- Embeds `momentum_strategy` (trading_strategies.py lines 6-72), minus
its console printing: longs = `head(num_stocks)` and shorts =
`tail(num_stocks)` of the descending rank ordering of the last row. -/
def momentum_strategy (f : Frame) (lookback lag num_stocks : Nat) :
    List String × List String :=
  ((selectionOrder f lookback lag).take num_stocks,
    takeRight num_stocks (selectionOrder f lookback lag))

/-- Failure modes of the regression pipeline.  `linAlgFailure` models the
generic numerical failure of the unguarded OLS fit on a degenerate design
matrix; `emptyOverlap` exists only to make claims about a typed
empty-overlap error statable — the repository never raises or checks
anything of the kind. -/
inductive FFErr where
  | emptyOverlap
  | linAlgFailure
deriving DecidableEq

/-- One row of the Fama-French benchmark table. -/
structure FFRow where
  mktrf : ℚ
  smb : ℚ
  hml : ℚ
  rf : ℚ
deriving DecidableEq

/-- Division of every factor value by 100. -/
def div100 (r : FFRow) : FFRow := ⟨r.mktrf / 100, r.smb / 100, r.hml / 100, r.rf / 100⟩

/-- Embeds `load_fama_french_factors` (fama_french.py lines 15-41) from
the parsed CSV table onwards: `ff = ff / 100.0`, applied once at load.
Periods are encoded as month numbers. -/
def load_fama_french_factors (raw : List (Nat × FFRow)) : List (Nat × FFRow) :=
  raw.map (fun pr => (pr.1, div100 pr.2))

/-- Embeds `pd.merge(umd, ff, left_index=True, right_index=True,
how=inner)` for uniquely indexed operands: a UMD row survives exactly when
its period also appears in the benchmark table, and carries that period's
factor row. -/
def mergeInner (umd : List (Nat × ℚ)) (ff : List (Nat × FFRow)) :
    List (Nat × ℚ × FFRow) :=
  umd.filterMap (fun pu => (ff.lookup pu.1).map (fun r => (pu.1, pu.2, r)))

/-- One row of the regression design matrix: `sm.add_constant` prepends the
constant 1 to the three factor regressors (fama_french.py lines 98-99). -/
def designRow (r : FFRow) : List ℚ := [1, r.mktrf, r.smb, r.hml]

/-- Dot product of two coefficient lists. -/
def dot (a b : List ℚ) : ℚ := ((a.zip b).map (fun pr => pr.1 * pr.2)).sum

/-- Finds the first equation whose leading coefficient is nonzero and
returns it together with the remaining equations. -/
def findPiv : List (List ℚ × ℚ) → Option ((List ℚ × ℚ) × List (List ℚ × ℚ))
  | [] => none
  | e :: rest =>
    if e.1.headD 0 ≠ 0 then some (e, rest)
    else (findPiv rest).map (fun pr => (pr.1, e :: pr.2))

/-- Gaussian elimination on `n` unknowns over rational equations
`(coefficients, right-hand side)`; `none` when no pivot is available for
some unknown (singular system — which in particular happens for the all
zero normal equations produced by an empty sample). -/
def elimVars : Nat → List (List ℚ × ℚ) → Option (List ℚ)
  | 0, _ => some []
  | n + 1, eqs =>
    match findPiv eqs with
    | none => none
    | some (piv, rest) =>
      let a := piv.1.headD 0
      let ptail := piv.1.tail
      let reduced := rest.map (fun e =>
        let c := e.1.headD 0 / a
        (((e.1.tail.zip ptail).map (fun q => q.1 - c * q.2)), e.2 - c * piv.2))
      match elimVars n reduced with
      | none => none
      | some xs => some ((piv.2 - dot ptail xs) / a :: xs)

/-- The OLS fit `sm.OLS(Y, X).fit()` for the four-column design
(constant + three factors), via the normal equations
`Xᵀ X β = Xᵀ y` solved by Gaussian elimination.  A degenerate design —
in particular zero rows, where statsmodels has no meaningful fit —
yields the generic `linAlgFailure`, never a typed overlap error. -/
def olsFit (y : List ℚ) (x : List (List ℚ)) : Except FFErr (List ℚ) :=
  let cols := (List.range 4).map (fun j => x.map (fun r => r.getD j 0))
  let xtx := cols.map (fun c => cols.map (fun c2 => dot c c2))
  let xty := cols.map (fun c => dot c y)
  match elimVars 4 (xtx.zip xty) with
  | some b => Except.ok b
  | none => Except.error FFErr.linAlgFailure

/-- Embeds `run_fama_french_regression` (fama_french.py lines 78-103) from
the already computed UMD series and the parsed raw benchmark CSV: load
(divide by 100), inner-join on the period index, and fit — with no check
whatsoever between the join and the fit. -/
def run_fama_french_regression (umd : List (Nat × ℚ)) (raw : List (Nat × FFRow)) :
    Except FFErr (List ℚ) :=
  let ff := load_fama_french_factors raw
  let df := mergeInner umd ff
  olsFit (df.map (fun e => e.2.1)) (df.map (fun e => designRow e.2.2))

/-! Concrete inputs used by counterexamples and witnesses. -/

/-- A 14-row, 1-asset monthly close matrix; closes 1, 2, 1, …, 1, 6, 1. -/
def exC1 : Mat :=
  [[some 1], [some 2], [some 1], [some 1], [some 1], [some 1], [some 1],
   [some 1], [some 1], [some 1], [some 1], [some 1], [some 6], [some 1]]

/-- A constant price row for four assets. -/
def rowOnes4 : List (Option ℚ) := [some 1, some 1, some 1, some 1]

/-- A fully populated 14-row, 4-asset monthly close matrix with pairwise
distinct momentum scores at rows 12 and 13. -/
def exC2 : Mat :=
  [rowOnes4, rowOnes4, rowOnes4, rowOnes4, rowOnes4, rowOnes4, rowOnes4,
   rowOnes4, rowOnes4, rowOnes4, rowOnes4,
   [some 4, some 3, some 2, some (3/2)],
   [some 5, some 4, some 3, some 2],
   [some 10, some 4, some 6, some 1]]

/-- A 13-row, 2-asset monthly close matrix with every price 1: both
momentum scores at row 12 are present and equal (both 0). -/
def exC3 : Mat := List.replicate 13 [some 1, some 1]

/-- A 14-row close frame for three assets in which asset C has a missing
price one month before the last row, hence a missing momentum score
there, while A and B are ranked. -/
def exF10 : Frame :=
  { assets := ["A", "B", "C"]
    closes :=
      [[some 1, some 1, some 1], [some 1, some 1, some 1], [some 1, some 1, some 1],
       [some 1, some 1, some 1], [some 1, some 1, some 1], [some 1, some 1, some 1],
       [some 1, some 1, some 1], [some 1, some 1, some 1], [some 1, some 1, some 1],
       [some 1, some 1, some 1], [some 1, some 1, some 1], [some 1, some 1, some 1],
       [some 2, some 3, none], [some 1, some 1, some 1]] }

/-- A 14-row close frame for two assets whose momentum scores at the last
row are equal, so their percentile ranks tie at 3/4; the columns are
ordered B before A, the reverse of identifier order, to separate
column-position tie-breaking from identifier tie-breaking. -/
def exF7 : Frame :=
  { assets := ["B", "A"]
    closes :=
      [[some 1, some 1], [some 1, some 1], [some 1, some 1], [some 1, some 1],
       [some 1, some 1], [some 1, some 1], [some 1, some 1], [some 1, some 1],
       [some 1, some 1], [some 1, some 1], [some 1, some 1], [some 1, some 1],
       [some 2, some 2], [some 1, some 1]] }

/-- A 15-row close frame whose next-to-last rank row has both assets
ranked (B above A) while the last rank row is entirely missing, because
both closes one month before the last row are missing. -/
def exF4a : Frame :=
  { assets := ["A", "B"]
    closes :=
      [[some 1, some 1], [some 1, some 1], [some 1, some 1], [some 1, some 1],
       [some 1, some 1], [some 1, some 1], [some 1, some 1], [some 1, some 1],
       [some 1, some 1], [some 1, some 1], [some 1, some 1], [some 1, some 1],
       [some 2, some 3], [none, none], [some 1, some 1]] }

/-- A 2-row close frame: far too short for any 12-1 momentum score, so no
row of the rank matrix has any ranked entry. -/
def exF4b : Frame :=
  { assets := ["A", "B"], closes := [[some 1, some 1], [some 1, some 1]] }

/-- A UMD series spanning the months of 2010-2011 (month numbers 480-503
encode 2010-01 through 2011-12). -/
def umdC5 : List (Nat × ℚ) := [(480, 1/10), (490, 2/10), (503, -1/20)]

/-- A benchmark factor table spanning 2015-2020 (month numbers 540-611):
no period in common with `umdC5`. -/
def rawC5 : List (Nat × FFRow) := [(540, ⟨1, 2, 3, 4⟩), (600, ⟨5, 6, 7, 8⟩)]

/-- A one-row raw benchmark table sharing its period with `umdC8`. -/
def rawC8 : List (Nat × FFRow) := [(5, ⟨1, 2, 3, 4⟩)]

/-- A one-value UMD series overlapping `rawC8`. -/
def umdC8 : List (Nat × ℚ) := [(5, 7)]

/-! Basic table-access lemmas. -/

theorem divScore_none_left (y : Option ℚ) : divScore none y = none := by
  cases y <;> rfl

theorem divScore_none_right (x : Option ℚ) : divScore x none = none := by
  cases x <;> rfl

theorem getD_zipWith_divScore (xs ys : List (Option ℚ)) (a : Nat) :
    (List.zipWith divScore xs ys).getD a none
      = divScore (xs.getD a none) (ys.getD a none) := by
  induction xs generalizing ys a with
  | nil => simp [divScore_none_left]
  | cons x xs ih =>
    cases ys with
    | nil => simp [divScore_none_right]
    | cons y ys =>
      cases a with
      | zero => simp
      | succ a => simpa using ih ys a

theorem getD_zipMat (f : Option ℚ → Option ℚ → Option ℚ) (A B : Mat) (t : Nat) :
    (zipMat f A B).getD t [] = List.zipWith f (A.getD t []) (B.getD t []) := by
  induction A generalizing B t with
  | nil => simp [zipMat]
  | cons r A ih =>
    cases B with
    | nil => simp [zipMat]
    | cons s B =>
      cases t with
      | zero => simp [zipMat]
      | succ t => simpa [zipMat] using ih B t

theorem getD_replicate {α : Type} (d x : α) (n i : Nat) :
    (List.replicate n x).getD i d = if i < n then x else d := by
  induction n generalizing i with
  | zero => simp
  | succ n ih =>
    cases i with
    | zero => simp
    | succ i =>
      rw [List.replicate_succ, List.getD_cons_succ, ih i]
      simp [Nat.succ_lt_succ_iff]

theorem getD_take {α : Type} (l : List α) (d : α) (j i : Nat) (h : i < j) :
    (l.take j).getD i d = l.getD i d := by
  rw [List.getD_eq_getElem?_getD, List.getD_eq_getElem?_getD, List.getElem?_take]
  simp [h]

theorem getD_shiftRows (k w : Nat) (m : Mat) (t : Nat) (ht : t < m.length) :
    (shiftRows k w m).getD t []
      = if t < k then List.replicate w none else m.getD (t - k) [] := by
  unfold shiftRows
  by_cases h : t < k
  · have hmin : t < min k m.length := lt_min h ht
    rw [if_pos h, List.getD_append _ _ _ _ (by simpa using hmin),
      getD_replicate]
    simp [hmin]
  · have hk : k ≤ m.length := le_trans (Nat.le_of_not_lt h) (Nat.le_of_lt ht)
    have hlen : (List.replicate (min k m.length) (List.replicate w (none : Option ℚ))).length = k := by
      simp [Nat.min_eq_left hk]
    rw [if_neg h, List.getD_append_right _ _ _ _ (by omega), hlen,
      getD_take _ _ _ _ (by omega)]

theorem getD_none_of_forall (l : List (Option ℚ)) (h : ∀ y ∈ l, y = none) (a : Nat) :
    l.getD a none = none := by
  by_cases ha : a < l.length
  · rw [List.getD_eq_getElem?_getD, List.getElem?_eq_getElem ha]
    exact h _ (List.getElem_mem ha)
  · exact List.getD_eq_default l none (Nat.le_of_not_lt ha)

theorem mem_zipWith_divScore_replicate (xs : List (Option ℚ)) (w : Nat) :
    ∀ y ∈ List.zipWith divScore xs (List.replicate w none), y = none := by
  induction xs generalizing w with
  | nil => simp
  | cons x xs ih =>
    cases w with
    | zero => simp
    | succ w =>
      intro y hy
      rcases List.mem_cons.mp hy with h | h
      · rw [h, divScore_none_right]
      · exact ih w y h

theorem momScore_row_none (w : Nat) (m : Mat) (t : Nat) (ht : t < m.length) (h12 : t < 12) :
    ∀ y ∈ (momScore w m).getD t [], y = none := by
  unfold momScore
  rw [getD_zipMat, getD_shiftRows 12 w m t ht, if_pos h12]
  exact mem_zipWith_divScore_replicate _ w

theorem momScore_row_eq (w : Nat) (m : Mat) (t : Nat) (ht : t < m.length) (h12 : 12 ≤ t) :
    (momScore w m).getD t []
      = List.zipWith divScore (m.getD (t - 1) []) (m.getD (t - 12) []) := by
  unfold momScore
  rw [getD_zipMat, getD_shiftRows 1 w m t ht, getD_shiftRows 12 w m t ht,
    if_neg (by omega), if_neg (by omega)]

/-- C1, amended: in `calculate_umd` the momentum score at row `t` is the
close 1 month before `t` divided by the close **12** months before `t`,
minus 1 (`shift(1) / shift(12)`), missing when either of those closes is
missing or when `t` has fewer than 12 predecessors — not the close 13
months before `t` that the fixed `lookback=12, lag=1` reading
`price[t-lag] / price[t-lag-lookback]` of the claim demands. -/
theorem C1_theorem (m : Mat) (w t a : Nat) (ht : t < m.length) :
    getEntry (momScore w m) t a
      = if t < 12 then none
        else divScore (getEntry m (t - 1) a) (getEntry m (t - 12) a) := by
  by_cases h : t < 12
  · rw [if_pos h]
    exact getD_none_of_forall _ (momScore_row_none w m t ht h) a
  · rw [if_neg h]
    unfold getEntry
    rw [momScore_row_eq w m t ht (Nat.le_of_not_lt h)]
    exact getD_zipWith_divScore _ _ a

/-- Witness for C1: the amended score equation evaluated on the concrete
matrix `exC1` at row 13 (so the score is `6/2 - 1 = 2`, the close of row
12 divided by the close of row 1). -/
theorem C1_witness :
    getEntry (momScore 1 exC1) 13 0
      = if 13 < 12 then none
        else divScore (getEntry exC1 12 0) (getEntry exC1 1 0) :=
  C1_theorem exC1 1 13 0 (by decide)

/-- Counterexample to C1 as stated: on `exC1` the score at row 13 is
`some 2 = 6/2 - 1` (denominator 12 rows back), while the claimed formula
with the close 13 months before row 13 (`close[0] = 1`) would give
`6/1 - 1 = 5`. -/
theorem C1_counterexample :
    getEntry (momScore 1 exC1) 13 0 = some 2
      ∧ getEntry exC1 12 0 = some 6
      ∧ getEntry exC1 0 0 = some 1
      ∧ getEntry (momScore 1 exC1) 13 0 ≠ some ((6 : ℚ) / 1 - 1) := by
  have h : getEntry (momScore 1 exC1) 13 0 = some 2 := by
    unfold getEntry
    rw [momScore_row_eq 1 exC1 13 (by norm_num [exC1]) (by norm_num)]
    norm_num [exC1, divScore]
  refine ⟨h, rfl, rfl, ?_⟩
  rw [h]
  norm_num

/-! Generic lemmas about ranking, masked means, and the UMD series. -/

theorem getD_rankMat (M : Mat) (t : Nat) :
    (rankMat M).getD t [] = rankRow (M.getD t []) := by
  induction M generalizing t with
  | nil => simp [rankMat, rankRow]
  | cons r M ih =>
    cases t with
    | zero => simp [rankMat]
    | succ t => simpa [rankMat] using ih t

theorem rankRow_all_none (row : List (Option ℚ)) (h : ∀ x ∈ row, x = none) :
    ∀ y ∈ rankRow row, y = none := by
  intro y hy
  rcases List.mem_map.mp hy with ⟨x, hx, rfl⟩
  rw [h x hx]
  rfl

theorem meanList_nil : meanList [] = none := rfl

theorem maskedVals_eq_nil (rets ranks : List (Option ℚ)) (p : ℚ → Bool)
    (h : ∀ y ∈ ranks, y = none) : maskedVals rets ranks p = [] := by
  unfold maskedVals
  refine List.filterMap_eq_nil_iff.mpr ?_
  intro pr hpr
  rcases pr with ⟨r, k⟩
  have h3 : k = none := h _ (List.of_mem_zip hpr).2
  subst h3
  cases r <;> rfl

theorem maskedVals_eq_nil_of_pred_false (rets ranks : List (Option ℚ)) (p : ℚ → Bool)
    (h : ∀ k0, some k0 ∈ ranks → p k0 = false) : maskedVals rets ranks p = [] := by
  unfold maskedVals
  refine List.filterMap_eq_nil_iff.mpr ?_
  rintro ⟨r, k⟩ hpr
  have hk := (List.of_mem_zip hpr).2
  cases k with
  | none => cases r <;> rfl
  | some k0 =>
    have hp := h k0 hk
    cases r with
    | none => rfl
    | some r0 => simp [hp]

theorem maskedMean_eq_none (rets ranks : List (Option ℚ)) (p : ℚ → Bool)
    (h : ∀ y ∈ ranks, y = none) : maskedMean rets ranks p = none := by
  unfold maskedMean
  rw [maskedVals_eq_nil rets ranks p h]
  exact meanList_nil

theorem umdEntry_eq_none_of_losers (w : Nat) (m : Mat) (x : ℚ) (t : Nat)
    (h : maskedVals ((monthlyReturns w m).getD t [])
        ((rankMat (momScore w m)).getD t []) (fun k => decide (k ≤ x)) = []) :
    umdEntry w m x t = none := by
  simp only [umdEntry, maskedMean, h, meanList_nil]
  cases meanList (maskedVals ((monthlyReturns w m).getD t [])
      ((rankMat (momScore w m)).getD t []) (fun k => decide (1 - x ≤ k))) <;> rfl

theorem umdEntry_eq_none_of_lt12 (w : Nat) (m : Mat) (x : ℚ) (t : Nat)
    (ht : t < m.length) (h12 : t < 12) : umdEntry w m x t = none := by
  refine umdEntry_eq_none_of_losers w m x t ?_
  refine maskedVals_eq_nil _ _ _ ?_
  rw [getD_rankMat]
  exact rankRow_all_none _ (momScore_row_none w m t ht h12)

theorem umdEntry_eq_some (w : Nat) (m : Mat) (x : ℚ) (t : Nat) (a b : ℚ)
    (hwin : maskedMean ((monthlyReturns w m).getD t [])
        ((rankMat (momScore w m)).getD t []) (fun k => decide (1 - x ≤ k)) = some a)
    (hlose : maskedMean ((monthlyReturns w m).getD t [])
        ((rankMat (momScore w m)).getD t []) (fun k => decide (k ≤ x)) = some b) :
    umdEntry w m x t = some (t, a - b) := by
  simp only [umdEntry, hwin, hlose]

theorem umdEntry_fst (w : Nat) (m : Mat) (x : ℚ) (t : Nat) (pr : Nat × ℚ)
    (h : umdEntry w m x t = some pr) : pr.1 = t := by
  simp only [umdEntry] at h
  cases hw : maskedMean ((monthlyReturns w m).getD t [])
      ((rankMat (momScore w m)).getD t []) (fun k => decide (1 - x ≤ k)) with
  | none => rw [hw] at h; cases h
  | some a =>
    rw [hw] at h
    cases hl : maskedMean ((monthlyReturns w m).getD t [])
        ((rankMat (momScore w m)).getD t []) (fun k => decide (k ≤ x)) with
    | none => rw [hl] at h; cases h
    | some b =>
      rw [hl] at h
      cases h
      rfl

theorem mem_calculate_umd (w : Nat) (m : Mat) (x : ℚ) (t : Nat) (v : ℚ) :
    (t, v) ∈ calculate_umd w m x ↔ t < m.length ∧ umdEntry w m x t = some (t, v) := by
  unfold calculate_umd
  rw [List.mem_filterMap]
  constructor
  · rintro ⟨a, ha, hfa⟩
    have hfst := umdEntry_fst w m x a _ hfa
    simp only at hfst
    subst hfst
    exact ⟨List.mem_range.mp ha, hfa⟩
  · rintro ⟨ht, h⟩
    exact ⟨t, List.mem_range.mpr ht, h⟩

theorem rankValue_const (vals : List ℚ) (v : ℚ) (hall : ∀ u ∈ vals, u = v) :
    rankValue vals v = ((vals.length : ℚ) + 1) / 2 / (vals.length : ℚ) := by
  unfold rankValue
  have h1 : vals.countP (fun u => decide (u < v)) = 0 :=
    List.countP_eq_zero.mpr (by intro a ha; rw [hall a ha]; simp)
  have h2 : vals.countP (fun u => decide (u = v)) = vals.length :=
    List.countP_eq_length.mpr (by intro a ha; rw [hall a ha]; simp)
  rw [h1, h2]
  push_cast
  ring

/-- C3, amended: in every period whose momentum scores are all present and
all equal, `calculate_umd` produces **no** UMD value: the common
percentile rank is `(n+1)/(2n)`, which exceeds `x_percent` whenever
`x_percent ≤ 1/2`, so the losers mask is empty, the losers mean is
missing, and the period is dropped by `dropna` (the function itself is
total, so nothing is raised).  The claimed UMD value of 0 never appears. -/
theorem C3_theorem (w : Nat) (m : Mat) (x : ℚ) (t : Nat) (v : ℚ)
    (hx : x ≤ 1 / 2)
    (hne : (momScore w m).getD t [] ≠ [])
    (hall : ∀ y ∈ (momScore w m).getD t [], y = some v) :
    ∀ u, (t, u) ∉ calculate_umd w m x := by
  intro u hu
  rw [mem_calculate_umd] at hu
  obtain ⟨ht, hsome⟩ := hu
  set srow := (momScore w m).getD t [] with hsrow
  set vals := srow.filterMap id with hvals
  have hval_mem : ∀ u0 ∈ vals, u0 = v := by
    intro u0 hu0
    rcases List.mem_filterMap.mp hu0 with ⟨o, ho, hoid⟩
    have := hall o ho
    rw [this] at hoid
    exact (Option.some_inj.mp hoid).symm
  have hv_mem : v ∈ vals := by
    rcases List.exists_cons_of_ne_nil hne with ⟨y, L, hyL⟩
    have hy : y ∈ srow := by rw [hyL]; exact List.mem_cons_self y L
    have := hall y hy
    exact List.mem_filterMap.mpr ⟨y, hy, by rw [this]; rfl⟩
  have hn : (0 : ℚ) < (vals.length : ℚ) := by
    have : 0 < vals.length := List.length_pos.mpr (List.ne_nil_of_mem hv_mem)
    exact_mod_cast this
  have hrank_gt : ¬ (((vals.length : ℚ) + 1) / 2 / (vals.length : ℚ) ≤ x) := by
    intro hle
    have h2 : ((vals.length : ℚ) + 1) / 2 / (vals.length : ℚ) ≤ 1 / 2 := le_trans hle hx
    rw [div_le_div_iff₀ hn (by norm_num)] at h2
    linarith
  have hnone : umdEntry w m x t = none := by
    refine umdEntry_eq_none_of_losers w m x t ?_
    refine maskedVals_eq_nil_of_pred_false _ _ _ ?_
    intro k0 hk0
    rw [getD_rankMat] at hk0
    rcases List.mem_map.mp hk0 with ⟨o, ho, hok⟩
    have ho_some := hall o ho
    rw [ho_some] at hok
    simp only [Option.map_some'] at hok
    have hk0v : k0 = rankValue vals v := by
      rw [← Option.some_inj, hok]
    rw [hk0v, rankValue_const vals v hval_mem]
    exact decide_eq_false hrank_gt
  rw [hnone] at hsome
  cases hsome

/-- Witness for C3: on the constant-price matrix `exC3` the two momentum
scores of row 12 are both `some 0`, and no UMD value for period 12
appears in the output (in particular not the value 0). -/
theorem C3_witness : ((12 : Nat), (0 : ℚ)) ∉ calculate_umd 2 exC3 (1 / 2) := by
  refine C3_theorem 2 exC3 (1 / 2) 12 0 (by norm_num) ?_ ?_ 0
  · rw [momScore_row_eq 2 exC3 12 (by norm_num [exC3]) (by norm_num)]
    norm_num [exC3, divScore]
    exact List.cons_ne_nil _ _
  · rw [momScore_row_eq 2 exC3 12 (by norm_num [exC3]) (by norm_num)]
    norm_num [exC3, divScore]

/-- Counterexample to C3 as stated: on `exC3` all (both) momentum scores
of row 12 are present and equal, yet the UMD output is the empty series —
the period is dropped, it does not receive the claimed value 0. -/
theorem C3_counterexample :
    (momScore 2 exC3).getD 12 [] = [some 0, some 0]
      ∧ calculate_umd 2 exC3 (1 / 2) = [] := by
  have hscore : (momScore 2 exC3).getD 12 [] = [some 0, some 0] := by
    rw [momScore_row_eq 2 exC3 12 (by norm_num [exC3]) (by norm_num)]
    norm_num [exC3, divScore, getD_replicate]
  refine ⟨hscore, ?_⟩
  have h12 : umdEntry 2 exC3 (1 / 2) 12 = none := by
    refine umdEntry_eq_none_of_losers _ _ _ _ ?_
    refine maskedVals_eq_nil_of_pred_false _ _ _ ?_
    intro k0 hk0
    rw [getD_rankMat, hscore] at hk0
    norm_num [rankRow, rankValue, List.countP_cons, List.filterMap_cons] at hk0
    rw [hk0]
    exact decide_eq_false (by norm_num)
  unfold calculate_umd
  refine List.filterMap_eq_nil_iff.mpr ?_
  intro t ht
  rw [List.mem_range] at ht
  have hlen : exC3.length = 13 := by norm_num [exC3]
  rw [hlen] at ht
  by_cases h : t < 12
  · exact umdEntry_eq_none_of_lt12 2 exC3 (1 / 2) t (by omega) h
  · have : t = 12 := by omega
    rw [this]
    exact h12

/-! Support for the 14-month, 4-asset scenario. -/

theorem monthlyReturns_row_eq (w : Nat) (m : Mat) (t : Nat) (ht : t < m.length)
    (h1 : 1 ≤ t) :
    (monthlyReturns w m).getD t []
      = List.zipWith divScore (m.getD t []) (m.getD (t - 1) []) := by
  unfold monthlyReturns
  rw [getD_zipMat, getD_shiftRows 1 w m t ht, if_neg (by omega)]

theorem getD_mem_mat (m : Mat) (t : Nat) (ht : t < m.length) : m.getD t [] ∈ m := by
  have h : m.getD t [] = m[t] := by
    rw [List.getD_eq_getElem?_getD, List.getElem?_eq_getElem ht]
    rfl
  rw [h]
  exact List.getElem_mem ht

theorem zipWith_divScore_full (xs : List (Option ℚ)) :
    ∀ (ys : List (Option ℚ)), (∀ x ∈ xs, x.isSome) → (∀ y ∈ ys, y.isSome) →
      ∀ z ∈ List.zipWith divScore xs ys, z.isSome := by
  induction xs with
  | nil => simp
  | cons a xs ih =>
    intro ys hx hy
    cases ys with
    | nil => simp
    | cons b ys =>
      intro z hz
      rcases List.mem_cons.mp hz with rfl | hz2
      · rcases Option.isSome_iff_exists.mp (hx a (by simp)) with ⟨p, hp⟩
        rcases Option.isSome_iff_exists.mp (hy b (by simp)) with ⟨q, hq⟩
        rw [hp, hq]
        rfl
      · exact ih ys (fun u hu => hx u (List.mem_cons_of_mem _ hu))
          (fun u hu => hy u (List.mem_cons_of_mem _ hu)) z hz2

theorem filterMap_id_length (row : List (Option ℚ)) (h : ∀ x ∈ row, x.isSome) :
    (row.filterMap id).length = row.length := by
  induction row with
  | nil => rfl
  | cons a L ih =>
    rcases Option.isSome_iff_exists.mp (h a (by simp)) with ⟨p, hp⟩
    rw [hp]
    simp only [List.filterMap_cons, id, List.length_cons]
    rw [ih (fun x hx => h x (List.mem_cons_of_mem _ hx))]

theorem exists_max_cons (l : List ℚ) : ∀ a : ℚ, ∃ v ∈ a :: l, ∀ u ∈ a :: l, u ≤ v := by
  induction l with
  | nil =>
    intro a
    refine ⟨a, List.mem_cons_self a [], ?_⟩
    intro u hu
    rcases List.mem_cons.mp hu with h | h
    · exact le_of_eq h
    · cases h
  | cons b L ih =>
    intro a
    obtain ⟨v, hv, hmax⟩ := ih b
    by_cases hav : a ≤ v
    · refine ⟨v, List.mem_cons_of_mem a hv, ?_⟩
      intro u hu
      rcases List.mem_cons.mp hu with h | h
      · exact h ▸ hav
      · exact hmax u h
    · refine ⟨a, List.mem_cons_self a _, ?_⟩
      intro u hu
      rcases List.mem_cons.mp hu with h | h
      · exact le_of_eq h
      · exact le_trans (hmax u h) (le_of_not_le hav)

theorem exists_max (l : List ℚ) (hne : l ≠ []) : ∃ v ∈ l, ∀ u ∈ l, u ≤ v := by
  rcases List.exists_cons_of_ne_nil hne with ⟨a, L, rfl⟩
  exact exists_max_cons L a

theorem exists_min_cons (l : List ℚ) : ∀ a : ℚ, ∃ v ∈ a :: l, ∀ u ∈ a :: l, v ≤ u := by
  induction l with
  | nil =>
    intro a
    refine ⟨a, List.mem_cons_self a [], ?_⟩
    intro u hu
    rcases List.mem_cons.mp hu with h | h
    · exact le_of_eq h.symm
    · cases h
  | cons b L ih =>
    intro a
    obtain ⟨v, hv, hmin⟩ := ih b
    by_cases hav : v ≤ a
    · refine ⟨v, List.mem_cons_of_mem a hv, ?_⟩
      intro u hu
      rcases List.mem_cons.mp hu with h | h
      · exact h ▸ hav
      · exact hmin u h
    · refine ⟨a, List.mem_cons_self a _, ?_⟩
      intro u hu
      rcases List.mem_cons.mp hu with h | h
      · exact le_of_eq h.symm
      · exact le_trans (le_of_not_le hav) (hmin u h)

theorem exists_min (l : List ℚ) (hne : l ≠ []) : ∃ v ∈ l, ∀ u ∈ l, v ≤ u := by
  rcases List.exists_cons_of_ne_nil hne with ⟨a, L, rfl⟩
  exact exists_min_cons L a

theorem countP_lt_add_countP_eq (l : List ℚ) (v : ℚ) (h : ∀ u ∈ l, u ≤ v) :
    l.countP (fun u => decide (u < v)) + l.countP (fun u => decide (u = v))
      = l.length := by
  induction l with
  | nil => simp
  | cons a L ih =>
    have ha := h a (List.mem_cons_self _ _)
    have ihL := ih (fun u hu => h u (List.mem_cons_of_mem _ hu))
    rw [List.countP_cons, List.countP_cons]
    rcases lt_or_eq_of_le ha with hlt | heq
    · rw [decide_eq_true hlt, decide_eq_false (ne_of_lt hlt)]
      norm_num [List.length_cons]
      omega
    · rw [decide_eq_false (by rw [heq]; exact lt_irrefl v), decide_eq_true heq]
      norm_num [List.length_cons]
      omega

theorem countP_eq_one_of_nodup (l : List ℚ) (hl : l.Nodup) (v : ℚ) (hv : v ∈ l) :
    l.countP (fun u => decide (u = v)) = 1 := by
  induction l with
  | nil => cases hv
  | cons a L ih =>
    rw [List.countP_cons]
    rcases List.mem_cons.mp hv with rfl | hvL
    · have hnotin : v ∉ L := (List.nodup_cons.mp hl).1
      have h0 : L.countP (fun u => decide (u = v)) = 0 :=
        List.countP_eq_zero.mpr
          (by intro u hu hdec; exact hnotin ((of_decide_eq_true hdec) ▸ hu))
      simp [h0]
    · have h1 := ih (List.nodup_cons.mp hl).2 hvL
      have hne : a ≠ v := by
        rintro rfl
        exact (List.nodup_cons.mp hl).1 hvL
      simp [h1, hne]

theorem rankRow_getElem? (row : List (Option ℚ)) (i : Nat) (v : ℚ)
    (h : row[i]? = some (some v)) :
    (rankRow row)[i]? = some (some (rankValue (row.filterMap id) v)) := by
  unfold rankRow
  rw [List.getElem?_map, h]
  rfl

theorem full_row_getElem? (row : List (Option ℚ)) (h : ∀ x ∈ row, x.isSome)
    (i : Nat) (hi : i < row.length) : ∃ p, row[i]? = some (some p) := by
  have hmem : row[i] ∈ row := List.getElem_mem hi
  rcases Option.isSome_iff_exists.mp (h _ hmem) with ⟨p, hp⟩
  exact ⟨p, by rw [List.getElem?_eq_getElem hi, hp]⟩

theorem zipWith_divScore_getElem? (xs ys : List (Option ℚ)) (i : Nat) (p q : ℚ)
    (hx : xs[i]? = some (some p)) (hy : ys[i]? = some (some q)) :
    (List.zipWith divScore xs ys)[i]? = some (some (p / q - 1)) := by
  rw [List.getElem?_zipWith, hx, hy]
  rfl

theorem mem_maskedVals (rets ranks : List (Option ℚ)) (p : ℚ → Bool) (i : Nat)
    (r k : ℚ) (hr : rets[i]? = some (some r)) (hk : ranks[i]? = some (some k))
    (hp : p k = true) : r ∈ maskedVals rets ranks p := by
  unfold maskedVals
  refine List.mem_filterMap.mpr ⟨(some r, some k), ?_, by simp [hp]⟩
  exact List.getElem?_mem (List.getElem?_zip_eq_some.mpr ⟨hr, hk⟩)

theorem maskedMean_isSome (rets ranks : List (Option ℚ)) (p : ℚ → Bool)
    (hne : maskedVals rets ranks p ≠ []) :
    ∃ a, maskedMean rets ranks p = some a := by
  unfold maskedMean meanList
  rw [if_neg (by simpa [List.isEmpty_iff] using hne)]
  exact ⟨_, rfl⟩

theorem umdEntry_some_of_full (m : Mat) (t : Nat)
    (hw : ∀ row ∈ m, row.length = 4)
    (hfull : ∀ row ∈ m, ∀ x ∈ row, x.isSome)
    (ht : t < m.length) (h12 : 12 ≤ t)
    (hnd : (((momScore 4 m).getD t []).filterMap id).Nodup) :
    ∃ v, umdEntry 4 m (1 / 2) t = some (t, v) := by
  have hm1 : m.getD (t - 1) [] ∈ m := getD_mem_mat m (t - 1) (by omega)
  have hm12 : m.getD (t - 12) [] ∈ m := getD_mem_mat m (t - 12) (by omega)
  have hmt : m.getD t [] ∈ m := getD_mem_mat m t ht
  have hsrow : (momScore 4 m).getD t []
      = List.zipWith divScore (m.getD (t - 1) []) (m.getD (t - 12) []) :=
    momScore_row_eq 4 m t ht h12
  have hsrow_some : ∀ z ∈ (momScore 4 m).getD t [], z.isSome := by
    rw [hsrow]
    exact zipWith_divScore_full _ _ (hfull _ hm1) (hfull _ hm12)
  have hsrow_len : ((momScore 4 m).getD t []).length = 4 := by
    rw [hsrow, List.length_zipWith, hw _ hm1, hw _ hm12]
    rfl
  have hvals_len : (((momScore 4 m).getD t []).filterMap id).length = 4 := by
    rw [filterMap_id_length _ hsrow_some, hsrow_len]
  have hvals_ne : ((momScore 4 m).getD t []).filterMap id ≠ [] := by
    intro h0
    rw [h0] at hvals_len
    simp at hvals_len
  obtain ⟨vmax, hmaxmem, hmax⟩ := exists_max _ hvals_ne
  obtain ⟨vmin, hminmem, hmin⟩ := exists_min _ hvals_ne
  have hrankmax : rankValue (((momScore 4 m).getD t []).filterMap id) vmax = 1 := by
    have he := countP_eq_one_of_nodup _ hnd vmax hmaxmem
    have hsum := countP_lt_add_countP_eq _ vmax hmax
    rw [he, hvals_len] at hsum
    unfold rankValue
    rw [he, hvals_len, show (((momScore 4 m).getD t []).filterMap id).countP
        (fun u => decide (u < vmax)) = 3 by omega]
    norm_num
  have hrankmin : rankValue (((momScore 4 m).getD t []).filterMap id) vmin = 1 / 4 := by
    have he := countP_eq_one_of_nodup _ hnd vmin hminmem
    have hlt : (((momScore 4 m).getD t []).filterMap id).countP
        (fun u => decide (u < vmin)) = 0 :=
      List.countP_eq_zero.mpr
        (by intro u hu hdec; exact absurd (of_decide_eq_true hdec) (not_lt.mpr (hmin u hu)))
    unfold rankValue
    rw [he, hlt, hvals_len]
    norm_num
  have hmax_srow : some vmax ∈ (momScore 4 m).getD t [] := by
    rcases List.mem_filterMap.mp hmaxmem with ⟨o, ho, hid⟩
    simp only [id] at hid
    exact hid ▸ ho
  have hmin_srow : some vmin ∈ (momScore 4 m).getD t [] := by
    rcases List.mem_filterMap.mp hminmem with ⟨o, ho, hid⟩
    simp only [id] at hid
    exact hid ▸ ho
  rcases List.mem_iff_getElem?.mp hmax_srow with ⟨i, hi⟩
  rcases List.mem_iff_getElem?.mp hmin_srow with ⟨j, hj⟩
  have hi4 : i < 4 := by
    rcases List.getElem?_eq_some.mp hi with ⟨hlt, _⟩
    rw [hsrow_len] at hlt
    exact hlt
  have hj4 : j < 4 := by
    rcases List.getElem?_eq_some.mp hj with ⟨hlt, _⟩
    rw [hsrow_len] at hlt
    exact hlt
  have hranks_i : ((rankMat (momScore 4 m)).getD t [])[i]?
      = some (some (rankValue (((momScore 4 m).getD t []).filterMap id) vmax)) := by
    rw [getD_rankMat]
    exact rankRow_getElem? _ i vmax hi
  have hranks_j : ((rankMat (momScore 4 m)).getD t [])[j]?
      = some (some (rankValue (((momScore 4 m).getD t []).filterMap id) vmin)) := by
    rw [getD_rankMat]
    exact rankRow_getElem? _ j vmin hj
  have hrrow : (monthlyReturns 4 m).getD t []
      = List.zipWith divScore (m.getD t []) (m.getD (t - 1) []) :=
    monthlyReturns_row_eq 4 m t ht (by omega)
  obtain ⟨pi2, hpi⟩ := full_row_getElem? _ (hfull _ hmt) i (by rw [hw _ hmt]; exact hi4)
  obtain ⟨qi2, hqi⟩ := full_row_getElem? _ (hfull _ hm1) i (by rw [hw _ hm1]; exact hi4)
  obtain ⟨pj2, hpj⟩ := full_row_getElem? _ (hfull _ hmt) j (by rw [hw _ hmt]; exact hj4)
  obtain ⟨qj2, hqj⟩ := full_row_getElem? _ (hfull _ hm1) j (by rw [hw _ hm1]; exact hj4)
  have hrets_i : ((monthlyReturns 4 m).getD t [])[i]? = some (some (pi2 / qi2 - 1)) := by
    rw [hrrow]
    exact zipWith_divScore_getElem? _ _ i pi2 qi2 hpi hqi
  have hrets_j : ((monthlyReturns 4 m).getD t [])[j]? = some (some (pj2 / qj2 - 1)) := by
    rw [hrrow]
    exact zipWith_divScore_getElem? _ _ j pj2 qj2 hpj hqj
  have hwin_ne : maskedVals ((monthlyReturns 4 m).getD t [])
      ((rankMat (momScore 4 m)).getD t [])
      (fun k => decide (1 - (1 : ℚ) / 2 ≤ k)) ≠ [] := by
    refine List.ne_nil_of_mem
      (mem_maskedVals _ _ _ i (pi2 / qi2 - 1) _ hrets_i hranks_i ?_)
    rw [hrankmax]
    exact decide_eq_true (by norm_num)
  have hlose_ne : maskedVals ((monthlyReturns 4 m).getD t [])
      ((rankMat (momScore 4 m)).getD t [])
      (fun k => decide (k ≤ (1 : ℚ) / 2)) ≠ [] := by
    refine List.ne_nil_of_mem
      (mem_maskedVals _ _ _ j (pj2 / qj2 - 1) _ hrets_j hranks_j ?_)
    rw [hrankmin]
    exact decide_eq_true (by norm_num)
  obtain ⟨a, ha⟩ := maskedMean_isSome _ _ _ hwin_ne
  obtain ⟨b, hb⟩ := maskedMean_isSome _ _ _ hlose_ne
  exact ⟨a - b, umdEntry_eq_some 4 m (1 / 2) t a b ha hb⟩

/-- C2, amended: on a fully populated 14-month close matrix for 4 assets
with `x_percent = 0.5`, `calculate_umd` produces **two** values, at months
13 and 14 (row indices 12 and 13) — not one — because the score
`shift(1)/shift(12)` already exists after a 12-row window; each value is
the mean return over the assets of percentile rank ≥ 0.5 minus the mean
over rank ≤ 0.5, which under distinct scores is a 3-versus-2 split (the
rank-0.5 asset falls in both masks), not the claimed 2-versus-2 split.
The distinctness hypotheses rule out degenerate all-tied score rows. -/
theorem C2_theorem (m : Mat)
    (hlen : m.length = 14)
    (hw : ∀ row ∈ m, row.length = 4)
    (hfull : ∀ row ∈ m, ∀ x ∈ row, x.isSome)
    (hnd12 : (((momScore 4 m).getD 12 []).filterMap id).Nodup)
    (hnd13 : (((momScore 4 m).getD 13 []).filterMap id).Nodup) :
    ∃ v12 v13, calculate_umd 4 m (1 / 2) = [(12, v12), (13, v13)] := by
  obtain ⟨v12, h12⟩ := umdEntry_some_of_full m 12 hw hfull (by omega) (by omega) hnd12
  obtain ⟨v13, h13⟩ := umdEntry_some_of_full m 13 hw hfull (by omega) (by omega) hnd13
  refine ⟨v12, v13, ?_⟩
  unfold calculate_umd
  rw [hlen]
  have hr : List.range 14 = List.range 12 ++ [12, 13] := by decide
  rw [hr, List.filterMap_append]
  have hnil : (List.range 12).filterMap (umdEntry 4 m (1 / 2)) = [] := by
    refine List.filterMap_eq_nil_iff.mpr ?_
    intro t ht
    have ht2 := List.mem_range.mp ht
    exact umdEntry_eq_none_of_lt12 4 m (1 / 2) t (by omega) ht2
  rw [hnil]
  simp only [List.filterMap_cons, h12, h13, List.filterMap_nil]
  rfl

theorem exC2_score12 : (momScore 4 exC2).getD 12 []
    = [some 3, some 2, some 1, some (1 / 2)] := by
  rw [momScore_row_eq 4 exC2 12 (by norm_num [exC2]) (by norm_num)]
  norm_num [exC2, rowOnes4, divScore]

theorem exC2_score13 : (momScore 4 exC2).getD 13 []
    = [some 4, some 3, some 2, some 1] := by
  rw [momScore_row_eq 4 exC2 13 (by norm_num [exC2]) (by norm_num)]
  norm_num [exC2, rowOnes4, divScore]

theorem exC2_ranks12 : (rankMat (momScore 4 exC2)).getD 12 []
    = [some 1, some (3 / 4), some (1 / 2), some (1 / 4)] := by
  rw [getD_rankMat, exC2_score12]
  norm_num [rankRow, rankValue, List.filterMap_cons, List.countP_cons]

theorem exC2_ranks13 : (rankMat (momScore 4 exC2)).getD 13 []
    = [some 1, some (3 / 4), some (1 / 2), some (1 / 4)] := by
  rw [getD_rankMat, exC2_score13]
  norm_num [rankRow, rankValue, List.filterMap_cons, List.countP_cons]

theorem exC2_rets12 : (monthlyReturns 4 exC2).getD 12 []
    = [some (1 / 4), some (1 / 3), some (1 / 2), some (1 / 3)] := by
  rw [monthlyReturns_row_eq 4 exC2 12 (by norm_num [exC2]) (by norm_num)]
  norm_num [exC2, rowOnes4, divScore]

theorem exC2_rets13 : (monthlyReturns 4 exC2).getD 13 []
    = [some 1, some 0, some 1, some (-(1 / 2))] := by
  rw [monthlyReturns_row_eq 4 exC2 13 (by norm_num [exC2]) (by norm_num)]
  norm_num [exC2, rowOnes4, divScore]

theorem exC2_umd12 : umdEntry 4 exC2 (1 / 2) 12 = some (12, 13 / 36 - 5 / 12) := by
  refine umdEntry_eq_some 4 exC2 (1 / 2) 12 (13 / 36) (5 / 12) ?_ ?_
  · rw [exC2_rets12, exC2_ranks12]
    norm_num [maskedMean, maskedVals, meanList, List.filterMap_cons, List.zip]
  · rw [exC2_rets12, exC2_ranks12]
    norm_num [maskedMean, maskedVals, meanList, List.filterMap_cons, List.zip]

theorem exC2_umd13 : umdEntry 4 exC2 (1 / 2) 13 = some (13, 2 / 3 - 1 / 4) := by
  refine umdEntry_eq_some 4 exC2 (1 / 2) 13 (2 / 3) (1 / 4) ?_ ?_
  · rw [exC2_rets13, exC2_ranks13]
    norm_num [maskedMean, maskedVals, meanList, List.filterMap_cons, List.zip]
  · rw [exC2_rets13, exC2_ranks13]
    norm_num [maskedMean, maskedVals, meanList, List.filterMap_cons, List.zip]

/-- Counterexample to C2 as stated: the fully populated 14-month, 4-asset
matrix `exC2` yields **two** UMD values (months 13 and 14), not exactly
one, and the month-14 value `5/12` — the 3-winner versus 2-loser split
produced by the rank-0.5 asset falling in both masks — differs from the
claimed mean-of-2-highest minus mean-of-2-lowest month-14 value
`(1 + 0)/2 − (1 + (−1/2))/2 = 1/4`. -/
theorem C2_counterexample :
    calculate_umd 4 exC2 (1 / 2) = [(12, -(1 / 18)), (13, 5 / 12)]
      ∧ (5 : ℚ) / 12 ≠ ((1 : ℚ) + 0) / 2 - ((1 : ℚ) + -(1 / 2)) / 2 := by
  constructor
  · unfold calculate_umd
    have hlen : exC2.length = 14 := by norm_num [exC2]
    rw [hlen]
    have hr : List.range 14 = List.range 12 ++ [12, 13] := by decide
    rw [hr, List.filterMap_append]
    have hnil : (List.range 12).filterMap (umdEntry 4 exC2 (1 / 2)) = [] := by
      refine List.filterMap_eq_nil_iff.mpr ?_
      intro t ht
      have ht2 := List.mem_range.mp ht
      exact umdEntry_eq_none_of_lt12 4 exC2 (1 / 2) t (by omega) ht2
    rw [hnil]
    simp only [List.filterMap_cons, exC2_umd12, exC2_umd13, List.filterMap_nil]
    norm_num
  · norm_num

/-- Witness for C2: the amended two-value statement holds on the concrete
matrix `exC2`, whose score rows 12 and 13 are pairwise distinct. -/
theorem C2_witness :
    ∃ v12 v13, calculate_umd 4 exC2 (1 / 2) = [(12, v12), (13, v13)] := by
  refine C2_theorem exC2 (by decide) (by decide) (by decide) ?_ ?_
  · rw [exC2_score12]
    norm_num [List.filterMap_cons]
  · rw [exC2_score13]
    norm_num [List.filterMap_cons]

/-! Lemmas about the long/short selection of momentum_strategy. -/

theorem shiftRows_length (k w : Nat) (m : Mat) : (shiftRows k w m).length = m.length := by
  unfold shiftRows
  rw [List.length_append, List.length_replicate, List.length_take]
  omega

theorem frameMomScore_length (f : Frame) (lookback lag : Nat) :
    (frameMomScore f lookback lag).length = f.closes.length := by
  unfold frameMomScore zipMat
  rw [List.length_zipWith, shiftRows_length, shiftRows_length]
  omega

theorem rankMat_length (M : Mat) : (rankMat M).length = M.length := by
  unfold rankMat
  exact List.length_map M rankRow

theorem getLastD_eq_getD (l : Mat) : l.getLastD [] = l.getD (l.length - 1) [] := by
  rw [List.getLastD_eq_getLast?, List.getLast?_eq_getElem?, List.getD_eq_getElem?_getD]

theorem lastRankRow_eq (f : Frame) (lookback lag : Nat) :
    lastRankRow f lookback lag
      = rankRow ((frameMomScore f lookback lag).getD (f.closes.length - 1) []) := by
  unfold lastRankRow
  rw [getLastD_eq_getD, rankMat_length, frameMomScore_length, getD_rankMat]

theorem frameMomScore_row_eq (f : Frame) (lookback lag t : Nat)
    (ht : t < f.closes.length) (h : lag + lookback ≤ t) :
    (frameMomScore f lookback lag).getD t []
      = List.zipWith divScore (f.closes.getD (t - lag) [])
          (f.closes.getD (t - (lag + lookback)) []) := by
  unfold frameMomScore
  rw [getD_zipMat, getD_shiftRows lag _ _ t ht, getD_shiftRows (lag + lookback) _ _ t ht,
    if_neg (by omega), if_neg (by omega)]

theorem ranked_add_unranked_length (f : Frame) (lookback lag : Nat) :
    (rankedPairs f lookback lag).length + (unrankedAssets f lookback lag).length
      = (f.assets.zip (lastRankRow f lookback lag)).length := by
  unfold rankedPairs unrankedAssets
  generalize f.assets.zip (lastRankRow f lookback lag) = l
  induction l with
  | nil => rfl
  | cons pr L ih =>
    rcases pr with ⟨a, k⟩
    cases k <;> simp only [List.filterMap_cons, List.length_cons] <;> omega

theorem unranked_nil (f : Frame) (lookback lag : Nat)
    (h : ∀ y ∈ lastRankRow f lookback lag, y.isSome) :
    unrankedAssets f lookback lag = [] := by
  unfold unrankedAssets
  refine List.filterMap_eq_nil_iff.mpr ?_
  rintro ⟨a, k⟩ hmem
  rcases Option.isSome_iff_exists.mp (h _ (List.of_mem_zip hmem).2) with ⟨v, rfl⟩
  rfl

theorem rankedPairs_map_fst (f : Frame) (lookback lag : Nat)
    (h : ∀ y ∈ lastRankRow f lookback lag, y.isSome)
    (hlen : (lastRankRow f lookback lag).length = f.assets.length) :
    (rankedPairs f lookback lag).map Prod.fst = f.assets := by
  unfold rankedPairs
  have key : ∀ (l : List (String × Option ℚ)), (∀ pr ∈ l, pr.2.isSome) →
      (l.filterMap (fun pr =>
        match pr with
        | (a, some k) => some (a, k)
        | (_, none) => none)).map Prod.fst = l.map Prod.fst := by
    intro l
    induction l with
    | nil => intro _; rfl
    | cons pr L ih =>
      intro hall
      rcases pr with ⟨a, k⟩
      rcases Option.isSome_iff_exists.mp (hall _ (List.mem_cons_self _ _)) with ⟨v, rfl⟩
      simp only [List.filterMap_cons, List.map_cons]
      rw [ih (fun q hq => hall q (List.mem_cons_of_mem _ hq))]
  rw [key _ (fun pr hpr => h _ (List.of_mem_zip hpr).2)]
  exact List.map_fst_zip _ _ (by rw [hlen])

theorem sortDesc_perm (l : List (String × ℚ)) : (sortDesc l).Perm l :=
  List.perm_insertionSort rankGE l

theorem selectionOrder_perm (f : Frame) (lookback lag : Nat)
    (h : ∀ y ∈ lastRankRow f lookback lag, y.isSome)
    (hlen : (lastRankRow f lookback lag).length = f.assets.length) :
    (selectionOrder f lookback lag).Perm f.assets := by
  unfold selectionOrder sortedDescPairs
  rw [unranked_nil f lookback lag h, List.append_nil]
  have h2 : ((sortDesc (rankedPairs f lookback lag)).map Prod.fst).Perm
      ((rankedPairs f lookback lag).map Prod.fst) :=
    (sortDesc_perm _).map _
  have h3 := rankedPairs_map_fst f lookback lag h hlen
  exact h2.trans (h3 ▸ List.Perm.refl _)

theorem selectionOrder_length (f : Frame) (lookback lag : Nat)
    (hlen : (lastRankRow f lookback lag).length = f.assets.length) :
    (selectionOrder f lookback lag).length = f.assets.length := by
  unfold selectionOrder sortedDescPairs
  rw [List.length_append, List.length_map,
    (sortDesc_perm _).length_eq, ranked_add_unranked_length, List.length_zip, hlen,
    min_self]

/-- C4, amended: the selection operates on the **last** row of the rank
matrix unconditionally and never fails: whatever the rank matrix contains
(even when no row has `2*numPositions` ranked entries) the function
returns a long list and a short list, each of length
`min numPositions (number of assets)`; no `InsufficientDataError` exists
anywhere in the code. -/
theorem C4_theorem (f : Frame) (lookback lag k : Nat)
    (hlen : (lastRankRow f lookback lag).length = f.assets.length) :
    (momentum_strategy f lookback lag k).1.length = min k f.assets.length
      ∧ (momentum_strategy f lookback lag k).2.length = min k f.assets.length := by
  unfold momentum_strategy takeRight
  constructor
  · show ((selectionOrder f lookback lag).take k).length = min k f.assets.length
    rw [List.length_take, selectionOrder_length f lookback lag hlen]
  · show ((selectionOrder f lookback lag).drop
        ((selectionOrder f lookback lag).length - k)).length = min k f.assets.length
    rw [List.length_drop, selectionOrder_length f lookback lag hlen]
    omega

/-- C6, amended: when the last rank row has a rank for **every** asset
(no additional missing-score assets) and there are exactly `2k` assets
without duplicate identifiers, selection with `numPositions = k`
partitions the assets: long ++ short is a permutation of the asset list
and no asset is in both lists.  (With extra missing-score assets present
the partition fails, as the counterexample shows.) -/
theorem C6_theorem (f : Frame) (lookback lag k : Nat)
    (hassets : f.assets.length = 2 * k)
    (hnd : f.assets.Nodup)
    (hlen : (lastRankRow f lookback lag).length = f.assets.length)
    (hall : ∀ y ∈ lastRankRow f lookback lag, y.isSome) :
    ((momentum_strategy f lookback lag k).1
        ++ (momentum_strategy f lookback lag k).2).Perm f.assets
      ∧ ∀ a, ¬(a ∈ (momentum_strategy f lookback lag k).1
          ∧ a ∈ (momentum_strategy f lookback lag k).2) := by
  have hperm := selectionOrder_perm f lookback lag hall hlen
  have hlenSel := selectionOrder_length f lookback lag hlen
  have hsplit : (momentum_strategy f lookback lag k).1
      ++ (momentum_strategy f lookback lag k).2 = selectionOrder f lookback lag := by
    unfold momentum_strategy takeRight
    show (selectionOrder f lookback lag).take k
        ++ (selectionOrder f lookback lag).drop
          ((selectionOrder f lookback lag).length - k)
      = selectionOrder f lookback lag
    rw [hlenSel, hassets, show 2 * k - k = k by omega]
    exact List.take_append_drop k _
  refine ⟨hsplit ▸ hperm, ?_⟩
  rintro a ⟨h1, h2⟩
  have hnodup : (selectionOrder f lookback lag).Nodup := hperm.nodup_iff.mpr hnd
  rw [← hsplit] at hnodup
  rcases List.nodup_append.mp hnodup with ⟨_, _, hdisj⟩
  exact hdisj h1 h2

theorem pairwise_take_drop {α : Type} (R : α → α → Prop) (l : List α) (k m : Nat)
    (hpw : List.Pairwise R l) (hkm : k ≤ m) :
    ∀ x ∈ l.take k, ∀ y ∈ l.drop m, R x y := by
  intro x hx y hy
  have hpw2 : List.Pairwise R (l.take k ++ l.drop k) := by
    rw [List.take_append_drop k l]
    exact hpw
  rcases List.pairwise_append.mp hpw2 with ⟨_, _, hcross⟩
  refine hcross x hx y ?_
  have hdd : l.drop m = (l.drop k).drop (m - k) := by
    rw [List.drop_drop]
    congr 1
    omega
  rw [hdd] at hy
  exact List.drop_subset _ _ hy

theorem sortedDescPairs_pairwise (f : Frame) (lookback lag : Nat) :
    List.Pairwise (fun p q : String × ℚ => q.2 ≤ p.2)
      (sortedDescPairs f lookback lag) := by
  unfold sortedDescPairs
  exact List.sorted_insertionSort rankGE _

theorem sortedDescPairs_length (f : Frame) (lookback lag : Nat)
    (h : ∀ y ∈ lastRankRow f lookback lag, y.isSome)
    (hlen : (lastRankRow f lookback lag).length = f.assets.length) :
    (sortedDescPairs f lookback lag).length = f.assets.length := by
  unfold sortedDescPairs
  rw [(sortDesc_perm _).length_eq]
  have hq := ranked_add_unranked_length f lookback lag
  rw [unranked_nil f lookback lag h] at hq
  simp only [List.length_nil, Nat.add_zero] at hq
  rw [hq, List.length_zip, hlen, min_self]

/-- C7, amended: when every asset of the last rank row is ranked and there
are at least `2k` assets, the long list is exactly the first `k` names and
the short list exactly the last `k` names of one deterministic stable
descending-by-rank ordering, so every long rank is ≥ every short rank and
two runs on the same input agree.  Boundary ties, however, are broken by
**original column position** (pandas nargsort makes the descending sort
stable), not by asset identifier ascending — the counterexample exhibits
a tie where the first column wins against identifier order. -/
theorem C7_theorem (f : Frame) (lookback lag k : Nat)
    (h2k : 2 * k ≤ f.assets.length)
    (hlen : (lastRankRow f lookback lag).length = f.assets.length)
    (hall : ∀ y ∈ lastRankRow f lookback lag, y.isSome) :
    (momentum_strategy f lookback lag k).1
        = ((sortedDescPairs f lookback lag).take k).map Prod.fst
      ∧ (momentum_strategy f lookback lag k).2
        = (takeRight k (sortedDescPairs f lookback lag)).map Prod.fst
      ∧ ∀ p ∈ (sortedDescPairs f lookback lag).take k,
          ∀ q ∈ takeRight k (sortedDescPairs f lookback lag), q.2 ≤ p.2 := by
  have hnil := unranked_nil f lookback lag hall
  have hsel : selectionOrder f lookback lag
      = (sortedDescPairs f lookback lag).map Prod.fst := by
    unfold selectionOrder
    rw [hnil, List.append_nil]
  have hlenS := sortedDescPairs_length f lookback lag hall hlen
  refine ⟨?_, ?_, ?_⟩
  · show (selectionOrder f lookback lag).take k
        = ((sortedDescPairs f lookback lag).take k).map Prod.fst
    rw [hsel]
    exact (List.map_take _ _ _).symm
  · show takeRight k (selectionOrder f lookback lag)
        = (takeRight k (sortedDescPairs f lookback lag)).map Prod.fst
    unfold takeRight
    rw [hsel, List.length_map]
    exact (List.map_drop _ _ _).symm
  · intro p hp q hq
    have hkm : k ≤ (sortedDescPairs f lookback lag).length - k := by
      rw [hlenS]
      omega
    exact pairwise_take_drop (fun p q : String × ℚ => q.2 ≤ p.2)
      (sortedDescPairs f lookback lag) k
      ((sortedDescPairs f lookback lag).length - k)
      (sortedDescPairs_pairwise f lookback lag) hkm p hp q hq

theorem exF10_lastRank : lastRankRow exF10 12 1 = [some (1 / 2), some 1, none] := by
  rw [lastRankRow_eq, show exF10.closes.length - 1 = 13 from by norm_num [exF10],
    frameMomScore_row_eq exF10 12 1 13 (by norm_num [exF10]) (by norm_num)]
  norm_num [exF10, divScore, rankRow, rankValue, List.filterMap_cons, List.countP_cons]

theorem exF10_strategy : momentum_strategy exF10 12 1 1 = (["B"], ["C"]) := by
  unfold momentum_strategy selectionOrder sortedDescPairs rankedPairs unrankedAssets
    sortDesc takeRight
  rw [exF10_lastRank]
  norm_num [exF10, List.insertionSort, List.orderedInsert, rankGE, List.zip_cons_cons,
    List.filterMap_cons]

theorem exF7_lastRank : lastRankRow exF7 12 1 = [some (3 / 4), some (3 / 4)] := by
  rw [lastRankRow_eq, show exF7.closes.length - 1 = 13 from by norm_num [exF7],
    frameMomScore_row_eq exF7 12 1 13 (by norm_num [exF7]) (by norm_num)]
  norm_num [exF7, divScore, rankRow, rankValue, List.filterMap_cons, List.countP_cons]

theorem exF7_strategy : momentum_strategy exF7 12 1 1 = (["B"], ["A"]) := by
  unfold momentum_strategy selectionOrder sortedDescPairs rankedPairs unrankedAssets
    sortDesc takeRight
  rw [exF7_lastRank]
  norm_num [exF7, List.insertionSort, List.orderedInsert, rankGE, List.zip_cons_cons,
    List.filterMap_cons]

theorem exF4a_rank13 : (rankMat (frameMomScore exF4a 12 1)).getD 13 []
    = [some (1 / 2), some 1] := by
  rw [getD_rankMat, frameMomScore_row_eq exF4a 12 1 13 (by norm_num [exF4a]) (by norm_num)]
  norm_num [exF4a, divScore, rankRow, rankValue, List.filterMap_cons, List.countP_cons]

theorem exF4a_lastRank : lastRankRow exF4a 12 1 = [none, none] := by
  rw [lastRankRow_eq, show exF4a.closes.length - 1 = 14 from by norm_num [exF4a],
    frameMomScore_row_eq exF4a 12 1 14 (by norm_num [exF4a]) (by norm_num)]
  norm_num [exF4a, divScore, rankRow]

theorem exF4a_strategy : momentum_strategy exF4a 12 1 1 = (["A"], ["B"]) := by
  unfold momentum_strategy selectionOrder sortedDescPairs rankedPairs unrankedAssets
    sortDesc takeRight
  rw [exF4a_lastRank]
  norm_num [exF4a, List.insertionSort, List.zip_cons_cons, List.filterMap_cons]

theorem exF4b_lastRank : lastRankRow exF4b 12 1 = [none, none] := by
  rw [lastRankRow_eq, show exF4b.closes.length - 1 = 1 from by norm_num [exF4b]]
  unfold frameMomScore
  rw [getD_zipMat, getD_shiftRows 1 _ _ 1 (by norm_num [exF4b]),
    getD_shiftRows (1 + 12) _ _ 1 (by norm_num [exF4b]), if_neg (by omega),
    if_pos (by omega)]
  norm_num [exF4b, divScore, rankRow, List.replicate]

theorem exF4b_strategy : momentum_strategy exF4b 12 1 1 = (["A"], ["B"]) := by
  unfold momentum_strategy selectionOrder sortedDescPairs rankedPairs unrankedAssets
    sortDesc takeRight
  rw [exF4b_lastRank]
  norm_num [exF4b, List.insertionSort, List.zip_cons_cons, List.filterMap_cons]

/-- Witness for C4: on `exF4a` (whose last rank row is entirely missing)
both returned lists have length `min 1 2 = 1` — the function returns
normally instead of failing. -/
theorem C4_witness :
    (momentum_strategy exF4a 12 1 1).1.length = min 1 exF4a.assets.length
      ∧ (momentum_strategy exF4a 12 1 1).2.length = min 1 exF4a.assets.length :=
  C4_theorem exF4a 12 1 1 (by rw [exF4a_lastRank]; rfl)

/-- Counterexample to C4 as stated: on `exF4a` the next-to-last rank row
has 2 = 2·numPositions ranked entries (B ranked above A), so the claimed
selection rule would operate on that row and go long B; the code instead
uses the entirely missing last row and returns (["A"], ["B"]) — and on
`exF4b`, where **no** row has 2 ranked entries, it still returns normally
instead of failing with InsufficientDataError. -/
theorem C4_counterexample :
    (rankMat (frameMomScore exF4a 12 1)).getD 13 [] = [some (1 / 2), some 1]
      ∧ lastRankRow exF4a 12 1 = [none, none]
      ∧ momentum_strategy exF4a 12 1 1 = (["A"], ["B"])
      ∧ momentum_strategy exF4b 12 1 1 = (["A"], ["B"]) :=
  ⟨exF4a_rank13, exF4a_lastRank, exF4a_strategy, exF4b_strategy⟩

/-- Witness for C6: on `exF7` (2 assets, both ranked, numPositions = 1)
the long and short lists partition the asset list. -/
theorem C6_witness :
    ((momentum_strategy exF7 12 1 1).1 ++ (momentum_strategy exF7 12 1 1).2).Perm
        exF7.assets
      ∧ ¬("A" ∈ (momentum_strategy exF7 12 1 1).1
          ∧ "A" ∈ (momentum_strategy exF7 12 1 1).2) := by
  have h := C6_theorem exF7 12 1 1 (by decide) (by decide)
    (by rw [exF7_lastRank]; rfl) (by rw [exF7_lastRank]; decide)
  exact ⟨h.1, h.2 "A"⟩

/-- Counterexample to C6 as stated: the last rank row of `exF10` has
exactly 2 = 2·numPositions ranked assets (A and B) plus the missing-score
asset C; selection returns (["B"], ["C"]): the ranked asset A appears in
neither list and the unranked asset C is selected short — the claimed
partition of the ranked assets fails. -/
theorem C6_counterexample :
    lastRankRow exF10 12 1 = [some (1 / 2), some 1, none]
      ∧ momentum_strategy exF10 12 1 1 = (["B"], ["C"])
      ∧ "A" ∉ (momentum_strategy exF10 12 1 1).1
      ∧ "A" ∉ (momentum_strategy exF10 12 1 1).2
      ∧ "C" ∈ (momentum_strategy exF10 12 1 1).2 := by
  refine ⟨exF10_lastRank, exF10_strategy, ?_, ?_, ?_⟩ <;> rw [exF10_strategy] <;> decide

/-- Witness for C7: on `exF7` with numPositions = 1 the long list is the
head of the descending ordering of the ranked pairs. -/
theorem C7_witness :
    (momentum_strategy exF7 12 1 1).1
      = ((sortedDescPairs exF7 12 1).take 1).map Prod.fst :=
  (C7_theorem exF7 12 1 1 (by decide) (by rw [exF7_lastRank]; rfl)
    (by rw [exF7_lastRank]; decide)).1

/-- Counterexample to C7 as stated: on `exF7` the columns are ordered
B before A and both assets carry the same rank 3/4, yet selection returns
(["B"], ["A"]) — the boundary tie keeps the original column order, going
long the first column B, not breaking the tie by asset identifier
ascending (which would put A long). -/
theorem C7_counterexample :
    exF7.assets = ["B", "A"]
      ∧ lastRankRow exF7 12 1 = [some (3 / 4), some (3 / 4)]
      ∧ momentum_strategy exF7 12 1 1 = (["B"], ["A"]) :=
  ⟨rfl, exF7_lastRank, exF7_strategy⟩

/-- C10: on `exF10` the most recent row mixes ranked assets (A, B) with
the missing-score asset C, and the short list is exactly ["C"]: an asset
with an undefined momentum score is selected for shorting, because the
missing-rank assets are ordered after all ranked assets and the shorts
are taken from the end of that ordering. -/
theorem C10_theorem :
    getEntry (frameMomScore exF10 12 1) 13 2 = none
      ∧ lastRankRow exF10 12 1 = [some (1 / 2), some 1, none]
      ∧ momentum_strategy exF10 12 1 1 = (["B"], ["C"])
      ∧ "C" ∈ (momentum_strategy exF10 12 1 1).2 := by
  refine ⟨?_, exF10_lastRank, exF10_strategy, ?_⟩
  · unfold getEntry
    rw [frameMomScore_row_eq exF10 12 1 13 (by norm_num [exF10]) (by norm_num)]
    norm_num [exF10, divScore]
  · rw [exF10_strategy]
    decide

/-! Lemmas about the regression pipeline. -/

theorem lookup_load (raw : List (Nat × FFRow)) (p : Nat) :
    (load_fama_french_factors raw).lookup p = (raw.lookup p).map div100 := by
  induction raw with
  | nil => rfl
  | cons pr L ih =>
    rcases pr with ⟨q, r⟩
    unfold load_fama_french_factors at ih ⊢
    simp only [List.map_cons]
    cases hq : (p == q) <;> simp [List.lookup, hq, ih]

theorem lookup_mem (l : List (Nat × FFRow)) (p : Nat) (r : FFRow)
    (h : l.lookup p = some r) : (p, r) ∈ l := by
  induction l with
  | nil => cases h
  | cons pr L ih =>
    rcases pr with ⟨q, s⟩
    cases hq : (p == q) with
    | false =>
      simp only [List.lookup, hq] at h
      exact List.mem_cons_of_mem _ (ih h)
    | true =>
      simp only [List.lookup, hq, Option.some.injEq] at h
      have hqp : p = q := eq_of_beq hq
      rw [hqp, ← h]
      exact List.mem_cons_self _ _

theorem mem_mergeInner (umd : List (Nat × ℚ)) (ff : List (Nat × FFRow))
    (pr : Nat × ℚ × FFRow) :
    pr ∈ mergeInner umd ff
      ↔ (pr.1, pr.2.1) ∈ umd ∧ ff.lookup pr.1 = some pr.2.2 := by
  unfold mergeInner
  rw [List.mem_filterMap]
  constructor
  · rintro ⟨pu, hpu, hmap⟩
    rcases Option.map_eq_some'.mp hmap with ⟨r, hr, heq⟩
    rw [← heq]
    exact ⟨hpu, hr⟩
  · rintro ⟨h1, h2⟩
    refine ⟨(pr.1, pr.2.1), h1, ?_⟩
    rw [h2]
    rfl

theorem mergeInner_nil_of_disjoint (umd : List (Nat × ℚ)) (ff : List (Nat × FFRow))
    (h : ∀ pu ∈ umd, ff.lookup pu.1 = none) : mergeInner umd ff = [] := by
  unfold mergeInner
  refine List.filterMap_eq_nil_iff.mpr ?_
  intro pu hpu
  rw [h pu hpu]
  rfl

theorem olsFit_nil : olsFit [] [] = Except.error FFErr.linAlgFailure := by rfl

theorem run_regression_disjoint (umd : List (Nat × ℚ)) (raw : List (Nat × FFRow))
    (h : ∀ pu ∈ umd, raw.lookup pu.1 = none) :
    run_fama_french_regression umd raw = Except.error FFErr.linAlgFailure := by
  simp only [run_fama_french_regression]
  have hm : mergeInner umd (load_fama_french_factors raw) = [] :=
    mergeInner_nil_of_disjoint _ _
      (by intro pu hpu; rw [lookup_load, h pu hpu]; rfl)
  rw [hm]
  exact olsFit_nil

/-- C5, amended: the evaluator inner-joins the UMD series and the loaded
benchmark table on the period index (a joined row exists exactly for
periods present on both sides, carrying that period's factor row), but
when the intersection is empty it does **not** raise a typed
EmptyOverlapError — no overlap check exists in the code; the empty merged
table is passed straight to the OLS fit, whose failure on zero rows is
the generic linear-algebra failure. -/
theorem C5_theorem (umd : List (Nat × ℚ)) (raw : List (Nat × FFRow))
    (hdisj : ∀ pu ∈ umd, raw.lookup pu.1 = none) :
    (∀ (ff : List (Nat × FFRow)) (pr : Nat × ℚ × FFRow),
        pr ∈ mergeInner umd ff → (pr.1, pr.2.1) ∈ umd ∧ ff.lookup pr.1 = some pr.2.2)
      ∧ mergeInner umd (load_fama_french_factors raw) = []
      ∧ run_fama_french_regression umd raw = Except.error FFErr.linAlgFailure := by
  refine ⟨?_, ?_, run_regression_disjoint umd raw hdisj⟩
  · intro ff pr hpr
    exact (mem_mergeInner umd ff pr).mp hpr
  · exact mergeInner_nil_of_disjoint _ _
      (by intro pu hpu; rw [lookup_load, hdisj pu hpu]; rfl)

/-- Witness for C5: the 2010-2011 UMD series `umdC5` and the 2015-2020
benchmark table `rawC5` have an empty period intersection, and the run
ends in the generic linear-algebra failure. -/
theorem C5_witness :
    mergeInner umdC5 (load_fama_french_factors rawC5) = []
      ∧ run_fama_french_regression umdC5 rawC5 = Except.error FFErr.linAlgFailure :=
  ⟨(C5_theorem umdC5 rawC5 (by decide)).2.1, (C5_theorem umdC5 rawC5 (by decide)).2.2⟩

/-- Counterexample to C5 as stated: on the disjoint-span inputs the merge
is empty, yet the result is **not** `EmptyOverlapError` (the code has no
such failure path); the unguarded fit fails generically instead. -/
theorem C5_counterexample :
    mergeInner umdC5 (load_fama_french_factors rawC5) = []
      ∧ run_fama_french_regression umdC5 rawC5 ≠ Except.error FFErr.emptyOverlap := by
  have hd : ∀ pu ∈ umdC5, rawC5.lookup pu.1 = none := by decide
  refine ⟨mergeInner_nil_of_disjoint _ _
    (by intro pu hpu; rw [lookup_load, hd pu hpu]; rfl), ?_⟩
  rw [run_regression_disjoint umdC5 rawC5 hd]
  intro hc
  exact FFErr.noConfusion (Except.error.inj hc)

/-- C8: the divide-by-100 normalization happens exactly once, in
`load_fama_french_factors`; `run_fama_french_regression` hands the merged
rows to `olsFit` as they are (first conjunct, definitional), and every
regressor row handed to the fit is `[1, mktrf/100, smb/100, hml/100]` for
the matching raw source row — divided by 100 exactly once, never again
inside the evaluator. -/
theorem C8_theorem (umd : List (Nat × ℚ)) (raw : List (Nat × FFRow)) (row : List ℚ)
    (hrow : row ∈ (mergeInner umd (load_fama_french_factors raw)).map
        (fun e => designRow e.2.2)) :
    run_fama_french_regression umd raw
        = olsFit ((mergeInner umd (load_fama_french_factors raw)).map (fun e => e.2.1))
            ((mergeInner umd (load_fama_french_factors raw)).map (fun e => designRow e.2.2))
      ∧ ∃ p r0, (p, r0) ∈ raw
          ∧ row = [1, r0.mktrf / 100, r0.smb / 100, r0.hml / 100] := by
  refine ⟨rfl, ?_⟩
  rcases List.mem_map.mp hrow with ⟨e, he, hrow_eq⟩
  rcases (mem_mergeInner umd _ e).mp he with ⟨_, h2⟩
  rw [lookup_load] at h2
  rcases Option.map_eq_some'.mp h2 with ⟨r0, hr0, hdiv⟩
  refine ⟨e.1, r0, lookup_mem raw e.1 r0 hr0, ?_⟩
  rw [← hrow_eq, ← hdiv]
  rfl

/-- Witness for C8: with the overlapping pair `umdC8`, `rawC8` the single
design row handed to the fit is `[1, 1/100, 2/100, 3/100]`, the raw
factor values 1, 2, 3 each divided by 100 once. -/
theorem C8_witness :
    run_fama_french_regression umdC8 rawC8
        = olsFit ((mergeInner umdC8 (load_fama_french_factors rawC8)).map (fun e => e.2.1))
            ((mergeInner umdC8 (load_fama_french_factors rawC8)).map (fun e => designRow e.2.2))
      ∧ ∃ p r0, (p, r0) ∈ rawC8
          ∧ [1, 1 / 100, 1 / 50, 3 / 100]
              = [1, r0.mktrf / 100, r0.smb / 100, r0.hml / 100] := by
  refine C8_theorem umdC8 rawC8 [1, 1 / 100, 1 / 50, 3 / 100] ?_
  have hm : mergeInner umdC8 (load_fama_french_factors rawC8)
      = [(5, 7, div100 ⟨1, 2, 3, 4⟩)] := by rfl
  rw [hm]
  simp only [List.map_cons, List.map_nil, designRow, div100]
  norm_num

/-! Scale invariance of percentile ranking. -/

theorem filterMap_id_map_option (g : ℚ → ℚ) (row : List (Option ℚ)) :
    (row.map (Option.map g)).filterMap id = (row.filterMap id).map g := by
  induction row with
  | nil => rfl
  | cons a L ih => cases a <;> simp [ih]

theorem rankValue_smul (vals : List ℚ) (c v : ℚ) (hc : 0 < c) :
    rankValue (vals.map (fun u => c * u)) (c * v) = rankValue vals v := by
  unfold rankValue
  rw [List.countP_map, List.countP_map, List.length_map]
  have h1 : vals.countP ((fun u => decide (u < c * v)) ∘ fun u => c * u)
      = vals.countP (fun u => decide (u < v)) := by
    refine List.countP_congr ?_
    intro a _
    simp [Function.comp, mul_lt_mul_left hc]
  have h2 : vals.countP ((fun u => decide (u = c * v)) ∘ fun u => c * u)
      = vals.countP (fun u => decide (u = v)) := by
    refine List.countP_congr ?_
    intro a _
    simp [Function.comp, mul_right_inj' (ne_of_gt hc)]
  rw [h1, h2]

/-- C9: percentile ranking is invariant under row-wise positive scaling:
multiplying every (non-missing) score of a row by a positive constant `c`
leaves the row's percentile ranks — and their missing pattern — exactly
unchanged. -/
theorem C9_theorem (row : List (Option ℚ)) (c : ℚ) (hc : 0 < c) :
    rankRow (row.map (Option.map (fun v => c * v))) = rankRow row := by
  unfold rankRow
  rw [filterMap_id_map_option, List.map_map]
  refine List.map_congr_left ?_
  intro x _
  simp only [Function.comp]
  cases x with
  | none => rfl
  | some v =>
    simp only [Option.map_some']
    rw [rankValue_smul _ c v hc]

/-- Witness for C9: doubling the scores `[some 1, none, some 3]` leaves
their percentile ranks unchanged. -/
theorem C9_witness :
    (0 : ℚ) < 2
      ∧ rankRow ([some 1, none, some 3].map (Option.map (fun v => (2 : ℚ) * v)))
          = rankRow [some 1, none, some 3] :=
  ⟨by norm_num, C9_theorem [some 1, none, some 3] 2 (by norm_num)⟩

end StockAnalysis
